import Mathlib

/-!
Verification of the birthday-bot scheduling and statistics engine.

The definitions below are a shallow embedding of the Python sources:
`utils/validators.py`, `services/birthday_service.py`,
`services/admin_service.py` and `scheduler/reminder_scheduler.py`.
Calendar dates are triples of naturals mirroring Python `datetime.date`
(years 1..9999, proleptic Gregorian calendar); operations of the standard
library that the code relies on (`date.replace`, date subtraction in days,
date ordering) are embedded explicitly.  Fallible constructions that raise
`ValueError` in Python are embedded as `Option`.  Percentage values that
the Python code keeps as floats rounded to one decimal place are
represented exactly as integer counts of tenths of a percent; Python's
`round` (round-half-even) becomes `roundTenths` on exact fractions.
Wall-clock timestamp fields (`created_at`, `deleted_at`, ...) carry no
information used by any computation verified here and are elided.
-/

namespace BirthdayBot

/-- Gregorian leap-year predicate, as used by Python's `datetime`. -/
def isLeap (y : Nat) : Bool :=
  (y % 4 == 0 && y % 100 != 0) || (y % 400 == 0)

/-- Length of month `m` (1..12) in a year whose leap flag is `L`. -/
def daysInMonth (L : Bool) (m : Nat) : Nat :=
  match m with
  | 1 => 31 | 2 => if L then 29 else 28 | 3 => 31 | 4 => 30
  | 5 => 31 | 6 => 30 | 7 => 31 | 8 => 31
  | 9 => 30 | 10 => 31 | 11 => 30 | 12 => 31
  | _ => 0

/-- Days strictly before month `m` within a year with leap flag `L`. -/
def daysBeforeMonth (L : Bool) (m : Nat) : Nat :=
  match m with
  | 1 => 0 | 2 => 31 | 3 => 59 + (if L then 1 else 0)
  | 4 => 90 + (if L then 1 else 0) | 5 => 120 + (if L then 1 else 0)
  | 6 => 151 + (if L then 1 else 0) | 7 => 181 + (if L then 1 else 0)
  | 8 => 212 + (if L then 1 else 0) | 9 => 243 + (if L then 1 else 0)
  | 10 => 273 + (if L then 1 else 0) | 11 => 304 + (if L then 1 else 0)
  | 12 => 334 + (if L then 1 else 0)
  | _ => 400

/-- A calendar date, mirroring Python `datetime.date` fields. -/
structure Date where
  year : Nat
  month : Nat
  day : Nat
deriving DecidableEq, Repr

/-- Validity of a month/day pair in a year with leap flag `L`. -/
def validMD (L : Bool) (m d : Nat) : Bool :=
  1 ≤ m && m ≤ 12 && 1 ≤ d && d ≤ daysInMonth L m

/-- Validity of a date (Python `datetime.date` invariant; year 1..9999). -/
def validDate (dt : Date) : Bool :=
  1 ≤ dt.year && dt.year ≤ 9999 && validMD (isLeap dt.year) dt.month dt.day

/-- Ordinal of the day within its year (1 = January 1st). -/
def dayOfYear (L : Bool) (m d : Nat) : Nat := daysBeforeMonth L m + d

/-- Number of days of year `y` (365 or 366). -/
def daysInYear (y : Nat) : Nat := if isLeap y then 366 else 365

/-- Number of leap years in `[1, y-1]`. -/
def leapsBefore (y : Nat) : Nat := (y-1)/4 - (y-1)/100 + (y-1)/400

/-- Proleptic-Gregorian day number of a date (Python `date.toordinal`
up to a constant shift); differences of `rataDie` model Python's
`(d1 - d2).days`. -/
def rataDie (dt : Date) : Nat :=
  365 * (dt.year - 1) + leapsBefore dt.year +
    dayOfYear (isLeap dt.year) dt.month dt.day

/-- Python date comparison `a < b` (chronological; lexicographic on
(year, month, day)). -/
def dateLt (a b : Date) : Bool :=
  a.year < b.year ||
    (a.year == b.year &&
      (a.month < b.month || (a.month == b.month && a.day < b.day)))

/-- Python date comparison `a <= b`. -/
def dateLe (a b : Date) : Bool := dateLt a b || a == b

/-- Python `(a - b).days`. -/
def daysBetween (a b : Date) : Int := (rataDie a : Int) - (rataDie b : Int)

/-- Python `t.replace(month := m, day := d)`; `none` models the
`ValueError` raised on an invalid result. -/
def replaceMD (t : Date) (m d : Nat) : Option Date :=
  if validDate ⟨t.year, m, d⟩ then some ⟨t.year, m, d⟩ else none

/-- Python `t.replace(year := y)`; `none` models the `ValueError`
raised on an invalid result (February 29 moved to a non-leap year). -/
def replaceYear (t : Date) (y : Nat) : Option Date :=
  if validDate ⟨y, t.month, t.day⟩ then some ⟨y, t.month, t.day⟩ else none

/-- Python tuple comparison `(a1, a2) > (b1, b2)`. -/
def pairGt (a1 a2 b1 b2 : Nat) : Bool :=
  b1 < a1 || (a1 == b1 && b2 < a2)

/-- Age computation of `services/birthday_service.py` lines 252-255 and
`services/admin_service.py` lines 86-88: `today.year - birthdate.year`,
minus one when `(birthdate.month, birthdate.day) > (today.month,
today.day)`. -/
def ageAt (b t : Date) : Int :=
  (t.year : Int) - (b.year : Int) -
    (if pairGt b.month b.day t.month t.day then 1 else 0)

/-- Predicate `isBirthdayOn`: month and day match, year ignored
(`reminder_scheduler.py` lines 38-40). -/
def isBirthdayOn (b t : Date) : Bool :=
  b.month == t.month && b.day == t.day

/-- Days until the next occurrence of the month/day of `b`, seen from
`t`: the loop body of `get_user_stats` lines 269-279.  `none` models the
unhandled `ValueError` from `date.replace`. -/
def daysUntilNext (b t : Date) : Option Int :=
  match replaceMD t b.month b.day with
  | none => none
  | some c =>
    if dateLt c t then
      match replaceYear c (t.year + 1) with
      | none => none
      | some c2 => some (daysBetween c2 t)
    else
      some (daysBetween c t)

/-! ### Character and string helpers (Python `str` methods over ASCII) -/

/-- Python `str.lower()` on an ASCII character. -/
def lowerChar (c : Char) : Char :=
  if 'A' ≤ c ∧ c ≤ 'Z' then Char.ofNat (c.toNat + 32) else c

/-- Python `str.upper()` on an ASCII character. -/
def upperChar (c : Char) : Char :=
  if 'a' ≤ c ∧ c ≤ 'z' then Char.ofNat (c.toNat - 32) else c

/-- ASCII letter test. -/
def isAlphaChar (c : Char) : Bool :=
  ('A' ≤ c && c ≤ 'Z') || ('a' ≤ c && c ≤ 'z')

/-- Whitespace as matched by Python's `str.strip` and regex `\s`. -/
def isSpaceChar (c : Char) : Bool :=
  c = ' ' || c = '\t' || c = '\n' || c = '\r' ||
    c = Char.ofNat 11 || c = Char.ofNat 12

/-- Python `str.lower()` over the character list of a string. -/
def lowerList (l : List Char) : List Char := l.map lowerChar

def dropLeadingSpace (l : List Char) : List Char :=
  match l with
  | [] => []
  | c :: cs => if isSpaceChar c then dropLeadingSpace cs else c :: cs

/-- Python `str.strip()` over the character list of a string. -/
def stripChars (l : List Char) : List Char :=
  (dropLeadingSpace ((dropLeadingSpace l.reverse).reverse))

/-- Python `str.title()`: first letter of each alphabetic run is
uppercased, the rest lowercased. -/
def titleAux : Bool → List Char → List Char
  | _, [] => []
  | prevAlpha, c :: cs =>
    if isAlphaChar c then
      (if prevAlpha then lowerChar c else upperChar c) :: titleAux true cs
    else
      c :: titleAux false cs

def titleChars (l : List Char) : List Char := titleAux false l

/-- Suffix test on character lists (Python `str.endswith`). -/
def endsWithChars (l suffix : List Char) : Bool :=
  (l.reverse.take suffix.length) == suffix.reverse

def startsWithChars (l pre : List Char) : Bool :=
  (l.take pre.length) == pre

/-- Substring containment (Python `sub in s`). -/
def containsChars (l sub : List Char) : Bool :=
  match l with
  | [] => sub == []
  | _ :: cs => startsWithChars l sub || containsChars cs sub

def isDigitChar (c : Char) : Bool := '0' ≤ c && c ≤ '9'

def digitVal (c : Char) : Nat := c.toNat - 48

/-! ### Validators (`utils/validators.py`) -/

/-- The keys of `BIRTHDAY_CATEGORIES` (`bot_config.py`). -/
def categoryKeys : List String :=
  ["love", "family", "relative", "work", "friend", "other"]

/-- The display labels of `BIRTHDAY_CATEGORIES` (`bot_config.py`). -/
def categoryDisplay (k : String) : String :=
  if k = "love" then "💕 Love"
  else if k = "family" then "👨‍👩‍👧‍👦 Family"
  else if k = "relative" then "👥 Relative"
  else if k = "work" then "💼 Work"
  else if k = "friend" then "👫 Friend"
  else if k = "other" then "🌟 Other"
  else k

/-- Embedding of `InputValidator.parse_date`: strict `YYYY-MM-DD` digits (regex
`^\d{4}-\d{2}-\d{2}$` over ASCII), calendar-valid via `strptime`
(which also enforces year 1..9999), then `year ∈ [1900, nowYear+50]`.
`nowYear` is `datetime.now().year` at call time. -/
def parseDate (nowYear : Nat) (s : String) : Option Date :=
  match s.data with
  | [y1, y2, y3, y4, h1, m1, m2, h2, d1, d2] =>
    if (isDigitChar y1 && isDigitChar y2 && isDigitChar y3 && isDigitChar y4 &&
        h1 == '-' && isDigitChar m1 && isDigitChar m2 &&
        h2 == '-' && isDigitChar d1 && isDigitChar d2) then
      let y := 1000 * digitVal y1 + 100 * digitVal y2 + 10 * digitVal y3 + digitVal y4
      let m := 10 * digitVal m1 + digitVal m2
      let d := 10 * digitVal d1 + digitVal d2
      if validDate ⟨y, m, d⟩ then
        if y < 1900 || nowYear + 50 < y then none else some ⟨y, m, d⟩
      else none
    else none
  | _ => none

/-- Embedding of `InputValidator.validate_name`: non-empty after strip, stripped
length at most 100, stripped characters all in `[a-zA-Z\s\-'.]`. -/
def validateName (name : String) : Bool :=
  let t := stripChars name.data
  !(t == []) && t.length ≤ 100 &&
    t.all (fun c => isAlphaChar c || isSpaceChar c ||
      c = '-' || c = Char.ofNat 39 || c = '.')

/-- Embedding of `InputValidator.validate_category`: case-insensitive membership in
the fixed category set. -/
def validateCategory (category : String) : Bool :=
  categoryKeys.any (fun k => k.data == lowerList category.data)

def imageExtensions : List String :=
  [".jpg", ".jpeg", ".png", ".gif", ".bmp", ".webp"]

def imageHosts : List String :=
  ["imgur.com", "i.imgur.com", "cdn.discordapp.com", "pbs.twimg.com",
   "images.unsplash.com", "googleusercontent.com", "cloudinary.com"]

/-- Embedding of `InputValidator.validate_image_url`.  The third-party
`validators.url` well-formedness check is not part of this repository
and is abstracted as a parameter `wf`.  After that check the code tests
whether the *whole lowercased URL string* ends with one of
`imageExtensions`, and otherwise whether it *contains one of
`imageHosts` as a substring anywhere*. -/
def validateImageUrl (wf : String → Bool) (url : String) : Bool :=
  if url.data == [] then true
  else if !(wf url) then false
  else
    let ul := lowerList url.data
    if imageExtensions.any (fun e => endsWithChars ul e.data) then true
    else if imageHosts.any (fun h => containsChars ul h.data) then true
    else false

/-- Modelled from the spec: the third-party `validators.url` check and
the URL host/path decomposition are not in `src/`; this parser follows
the spec's words "a well-formed URL whose path ends in a known image
extension OR whose host matches a known image-hosting allowlist".
It accepts `http://` or `https://`, a non-empty host, then an optional
`/path` and optional `?query`. -/
def splitHostRest (l : List Char) : List Char × List Char :=
  match l with
  | [] => ([], [])
  | c :: cs =>
    if c = '/' || c = '?' then ([], c :: cs)
    else
      let (h, r) := splitHostRest cs
      (c :: h, r)

def urlPathOf (rest : List Char) : List Char :=
  (rest.takeWhile (fun c => !(c = '?' || c = '#')))

def urlParse (s : List Char) : Option (List Char × List Char) :=
  if startsWithChars s "http://".data then
    some (splitHostRest (s.drop 7))
  else if startsWithChars s "https://".data then
    some (splitHostRest (s.drop 8))
  else none

/-- Modelled from the spec: well-formedness of a URL (scheme plus
non-empty host), standing in for the external `validators.url`. -/
def wellFormedUrl (s : String) : Bool :=
  match urlParse s.data with
  | some (h, _) => !(h == [])
  | none => false

/-- The image-URL validity predicate as the spec states it: empty is
valid; otherwise the URL must be well-formed and its *path* must end in
a known image extension, or its *host* must be a member of the
allowlist. -/
def specImageUrlValid (wf : String → Bool) (url : String) : Bool :=
  if url.data == [] then true
  else
    wf url &&
      (match urlParse (lowerList url.data) with
       | some (h, rest) =>
         imageExtensions.any (fun e => endsWithChars (urlPathOf rest) e.data) ||
           imageHosts.any (fun hst => h == hst.data)
       | none => false)

/-! ### Data model (`models/birthday.py`)

Wall-clock timestamp fields (`created_at`, `updated_at`, `deleted_at`)
carry no information used by any verified computation and are elided;
the soft-delete state is fully captured by `isDeleted`. -/

structure Brec where
  userId : Nat
  name : String
  birthdate : Date
  category : String
  imageUrl : Option String
  notes : Option String
  isDeleted : Bool
deriving DecidableEq, Repr

/-- Python truthiness `bool(image_url)`. -/
def hasImage (r : Brec) : Bool :=
  match r.imageUrl with
  | some s => !(s.data == [])
  | none => false

/-- Python truthiness `bool(notes)`. -/
def hasNotes (r : Brec) : Bool :=
  match r.notes with
  | some s => !(s.data == [])
  | none => false

/-- The ORM lookup `name__iexact=name.strip()`: the stored name equals
the stripped query up to ASCII case. -/
def matchName (query : String) (r : Brec) : Bool :=
  lowerList r.name.data == lowerList (stripChars query.data)

/-- The ORM call `.filter(...).first()` over a user's records. -/
def findFirst (p : Brec → Bool) : List Brec → Option Brec
  | [] => none
  | r :: rs => if p r then some r else findFirst p rs

/-- The ORM call `.filter(...).first()` followed by a field mutation and `save()`:
the first record satisfying `p` is replaced by `f` of it; `none` when no
record matches. -/
def updateFirst (p : Brec → Bool) (f : Brec → Brec) :
    List Brec → Option (List Brec)
  | [] => none
  | r :: rs =>
    if p r then some (f r :: rs)
    else (updateFirst p f rs).map (r :: ·)

/-! ### Birthday service mutations (`services/birthday_service.py`)

The state is the owning user's record list; the `User` row itself is
managed by `get_or_create` / `get_or_none` and is assumed present. -/

structure OpResult where
  success : Bool
  message : String
deriving DecidableEq, Repr

def commaJoinedKeys : String :=
  "love, family, relative, work, friend, other"

/-- Embedding of `BirthdayService.add_birthday` for a fixed user: validation,
duplicate check against the first record of the same case-insensitive
name, resurrection of a soft-deleted record, or creation. -/
def addBirthday (nowYear : Nat) (st : List Brec) (uid : Nat)
    (name dateStr category : String)
    (imageUrl notes : Option String) : OpResult × List Brec :=
  if !(validateName name) then
    (⟨false, "Invalid name format"⟩, st)
  else
    match parseDate nowYear dateStr with
    | none => (⟨false, "Invalid date format. Use YYYY-MM-DD"⟩, st)
    | some bd =>
      if !(validateCategory category) then
        (⟨false, "Invalid category. Use: " ++ commaJoinedKeys⟩, st)
      else if (match imageUrl with
               | some u => !(u.data == []) && !(validateImageUrl wellFormedUrl u)
               | none => false) then
        (⟨false, "Invalid image URL format"⟩, st)
      else
        match findFirst (matchName name) st with
        | some existing =>
          if !existing.isDeleted then
            (⟨false, "Birthday for " ++ name ++ " already exists"⟩, st)
          else
            -- restore the soft-deleted record with the new data
            let st' := (updateFirst (matchName name)
              (fun r => { r with
                  birthdate := bd,
                  category := String.mk (lowerList category.data),
                  imageUrl := imageUrl,
                  notes := notes,
                  isDeleted := false }) st).getD st
            (⟨true, "Birthday restored for " ++ existing.name ++
                " (" ++ dateStr ++ ")"⟩, st')
        | none =>
          let stored : Brec :=
            { userId := uid,
              name := String.mk (titleChars (stripChars name.data)),
              birthdate := bd,
              category := String.mk (lowerList category.data),
              imageUrl := imageUrl, notes := notes, isDeleted := false }
          (⟨true, "Birthday added for " ++ stored.name ++ " (" ++ dateStr ++
              ") - Category: " ++
              categoryDisplay (String.mk (lowerList category.data))⟩,
            st ++ [stored])

/-- Embedding of `BirthdayService.delete_birthday`: soft-delete the first active
record with the given case-insensitive name. -/
def deleteBirthday (st : List Brec) (name : String) : OpResult × List Brec :=
  match updateFirst (fun r => matchName name r && !r.isDeleted)
      (fun r => { r with isDeleted := true }) st with
  | none => (⟨false, "Birthday for " ++ name ++ " not found"⟩, st)
  | some st' => (⟨true, "Birthday for " ++ name ++ " deleted"⟩, st')

/-- Embedding of `BirthdayService.restore_deleted_birthday`: clear the soft-delete
flag of the first deleted record with the given name. -/
def restoreDeletedBirthday (st : List Brec) (name : String) :
    OpResult × List Brec :=
  match updateFirst (fun r => matchName name r && r.isDeleted)
      (fun r => { r with isDeleted := false }) st with
  | none => (⟨false, "No deleted birthday found for " ++ name⟩, st)
  | some st' => (⟨true, "Birthday for " ++ name ++ " restored successfully"⟩, st')

/-! ### User statistics (`BirthdayService.get_user_stats`) -/

/-- Python `calendar.month_name[i]` for `i ∈ 1..12`. -/
def monthName (m : Nat) : String :=
  match m with
  | 1 => "January" | 2 => "February" | 3 => "March" | 4 => "April"
  | 5 => "May" | 6 => "June" | 7 => "July" | 8 => "August"
  | 9 => "September" | 10 => "October" | 11 => "November" | 12 => "December"
  | _ => ""

/-- Lookup in an insertion-ordered dict modelled as an association
list. -/
def assocFind (k : String) : List (String × Nat) → Option Nat
  | [] => none
  | (k', v) :: rest => if k' = k then some v else assocFind k rest

/-- Python `dict[k] = dict.get(k, 0) + 1`: increment in place, appending the
key when absent.  (For the pre-seeded monthly dict the key is always
present for a valid month, so the append branch is unreachable there.) -/
def bumpIns (k : String) : List (String × Nat) → List (String × Nat)
  | [] => [(k, 1)]
  | (k', v) :: rest =>
    if k' = k then (k', v + 1) :: rest else (k', v) :: bumpIns k rest

/-- The twelve zero-filled month entries of `get_user_stats` lines
242-243. -/
def monthInit : List (String × Nat) :=
  (List.range' 1 12).map (fun i => (monthName i, 0))

structure NextInfo where
  name : String
  date : Date
  daysUntil : Int
  category : String
deriving DecidableEq, Repr

/-- One iteration of the next-birthday minimisation loop of
`get_user_stats` lines 269-288; the outer `none` models the unhandled
`ValueError` from `date.replace`, the inner `none` means no record seen
yet.  The strict `<` keeps the first record on ties, as in Python. -/
def nextStep (t : Date) (acc : Option (Option NextInfo)) (b : Brec) :
    Option (Option NextInfo) :=
  match acc with
  | none => none
  | some cur =>
    match daysUntilNext b.birthdate t with
    | none => none
    | some d =>
      match cur with
      | none => some (some ⟨b.name, b.birthdate, d, b.category⟩)
      | some best =>
        if d < best.daysUntil then
          some (some ⟨b.name, b.birthdate, d, b.category⟩)
        else some (some best)

/-- The next-birthday minimisation loop of `get_user_stats` lines
266-288. -/
def nextBirthdayFold (bs : List Brec) (t : Date) :
    Option (Option NextInfo) :=
  bs.foldl (nextStep t) (some none)

def listMinD (l : List Int) (dflt : Int) : Int :=
  match l with
  | [] => dflt
  | x :: xs => xs.foldl min x

def listMaxD (l : List Int) (dflt : Int) : Int :=
  match l with
  | [] => dflt
  | x :: xs => xs.foldl max x

/-- User statistics.  The floating-point `average_age` field is not
modelled (no claim refers to it); for zero records the Python dict has
no `age_range` key, modelled here by zero defaults. -/
structure UserStats where
  totalBirthdays : Nat
  upcomingThisMonth : Nat
  nextBirthday : Option NextInfo
  categoryBreakdown : List (String × Nat)
  monthlyDistribution : List (String × Nat)
  ageMin : Int
  ageMax : Int
deriving DecidableEq, Repr

/-- Embedding of `BirthdayService.get_user_stats` over the user's stored records and
the current date; `none` models the unhandled `ValueError` raised in
the next-birthday loop. -/
def getUserStats (rs : List Brec) (today : Date) : Option UserStats :=
  let bs := rs.filter (fun b => !b.isDeleted)
  if bs.length = 0 then
    some ⟨0, 0, none, [], [], 0, 0⟩
  else
    let categoryCounts := bs.foldl (fun acc b => bumpIns b.category acc) []
    let monthly :=
      bs.foldl (fun acc b => bumpIns (monthName b.birthdate.month) acc) monthInit
    let ages := bs.map (fun b => ageAt b.birthdate today)
    let upcoming := bs.countP
      (fun b => b.birthdate.month == today.month && today.day ≤ b.birthdate.day)
    match nextBirthdayFold bs today with
    | none => none
    | some nb =>
      some ⟨bs.length, upcoming, nb, categoryCounts, monthly,
        listMinD ages 0, listMaxD ages 0⟩

/-! ### System analytics (`services/admin_service.py`)

Percentages that Python keeps as floats rounded to one decimal place
(`round(x, 1)`) are represented exactly as natural numbers of *tenths
of a percent*; `roundTenths num den` is `round(num / den * 10)` with
Python's round-half-even tie rule evaluated on the exact fraction. -/

/-- Round `10 * num / den` half-to-even to an integer (the value of
`round(num / den, 1)` in tenths), on exact fractions. -/
def roundTenths (num den : Nat) : Nat :=
  if 2 * (10 * num % den) < den then 10 * num / den
  else if den < 2 * (10 * num % den) then 10 * num / den + 1
  else if (10 * num / den) % 2 = 0 then 10 * num / den
  else 10 * num / den + 1

/-- Python `round(count / den * 100, 1)` in tenths of a percent. -/
def pctTenths (count den : Nat) : Nat := roundTenths (count * 100) den

/-- The abbreviated month names of `get_analytics_report` lines
127-128. -/
def shortMonthName (m : Nat) : String :=
  match m with
  | 1 => "Jan" | 2 => "Feb" | 3 => "Mar" | 4 => "Apr"
  | 5 => "May" | 6 => "Jun" | 7 => "Jul" | 8 => "Aug"
  | 9 => "Sep" | 10 => "Oct" | 11 => "Nov" | 12 => "Dec"
  | _ => ""

def listMaxNat (l : List Nat) : Nat :=
  match l with
  | [] => 0
  | x :: xs => xs.foldl max x

/-- System analytics summary.  The floating-point `average` age and
`average_birthdays_per_user` fields are not modelled (no claim refers
to them); all percentage fields are in tenths of a percent. -/
structure AnalyticsReport where
  totalUsers : Nat
  totalBirthdays : Nat
  activeBirthdays : Nat
  deletedBirthdays : Nat
  deletionRateTenths : Nat
  categoryDistribution : List (String × Nat × Nat)
  ageMin : Int
  ageMax : Int
  ageMedian : Int
  monthlyDistribution : List (String × Nat)
  birthdaysWithImages : Nat
  birthdaysWithNotes : Nat
  imageUsageRateTenths : Nat
  notesUsageRateTenths : Nat
  mostBirthdaysBySingleUser : Nat
  totalActiveUsers : Nat
deriving DecidableEq, Repr

/-- Ascending insertion sort: the embedding of Python `sorted` on the
integer age list (stable sorts of integers agree element-wise). -/
def insertSorted (x : Int) : List Int → List Int
  | [] => [x]
  | y :: ys => if x ≤ y then x :: y :: ys else y :: insertSorted x ys

def insertionSort : List Int → List Int
  | [] => []
  | x :: xs => insertSorted x (insertionSort xs)

/-- The active-record age list of `get_analytics_report` line 117. -/
def agesOf (all : List Brec) (now : Date) : List Int :=
  (all.filter (fun b => !b.isDeleted)).map (fun b => ageAt b.birthdate now)

/-- Embedding of `AdminService.get_analytics_report` over the full record snapshot
(including soft-deleted records) and the current date; `none` models
the `{"error": "No data available for analysis"}` result on an empty
snapshot. -/
def getAnalyticsReport (allRecs : List Brec) (now : Date) :
    Option AnalyticsReport :=
  if allRecs.length = 0 then none
  else
    let active := allRecs.filter (fun b => !b.isDeleted)
    let activeCount := active.length
    let totalCount := allRecs.length
    let deletedCount := totalCount - activeCount
    let categoryStats := categoryKeys.map (fun k =>
      let c := active.countP (fun b => b.category == k)
      (categoryDisplay k, c,
        if 0 < activeCount then pctTenths c activeCount else 0))
    let ages := agesOf allRecs now
    let monthly := (List.range' 1 12).map (fun i =>
      (shortMonthName i,
        allRecs.countP (fun b => b.birthdate.month == i && !b.isDeleted)))
    let withImages := allRecs.countP (fun b => hasImage b && !b.isDeleted)
    let withNotes := allRecs.countP (fun b => hasNotes b && !b.isDeleted)
    let activeUserIds := (active.map (fun b => b.userId)).dedup
    let perUserCounts := activeUserIds.map
      (fun u => active.countP (fun b => b.userId == u))
    some
      { totalUsers := (allRecs.map (fun b => b.userId)).dedup.length,
        totalBirthdays := totalCount,
        activeBirthdays := activeCount,
        deletedBirthdays := deletedCount,
        deletionRateTenths :=
          if 0 < totalCount then pctTenths deletedCount totalCount else 0,
        categoryDistribution := categoryStats,
        ageMin := listMinD ages 0,
        ageMax := listMaxD ages 0,
        ageMedian :=
          if ages.length = 0 then 0
          else (insertionSort ages).getD (ages.length / 2) 0,
        monthlyDistribution := monthly,
        birthdaysWithImages := withImages,
        birthdaysWithNotes := withNotes,
        imageUsageRateTenths :=
          if 0 < activeCount then pctTenths withImages activeCount else 0,
        notesUsageRateTenths :=
          if 0 < activeCount then pctTenths withNotes activeCount else 0,
        mostBirthdaysBySingleUser := listMaxNat perUserCounts,
        totalActiveUsers := activeUserIds.length }

/-! ### Reminder scheduler (`scheduler/reminder_scheduler.py`) -/

/-- The next calendar day. -/
def succDate (d : Date) : Date :=
  if d.day < daysInMonth (isLeap d.year) d.month then
    ⟨d.year, d.month, d.day + 1⟩
  else if d.month < 12 then ⟨d.year, d.month + 1, 1⟩
  else ⟨d.year + 1, 1, 1⟩

/-- Python `user_time + timedelta(days := k)` on the date part. -/
def addDays (d : Date) : Nat → Date
  | 0 => d
  | k + 1 => succDate (addDays d k)

/-- The match collection of `check_upcoming_birthdays` lines 118-131:
for offsets 1..3 from the user's local today, the active records whose
month/day equal the offset date, each paired with its offset. -/
def upcomingMatches (recs : List Brec) (userToday : Date) :
    List (Brec × Nat) :=
  [1, 2, 3].foldl
    (fun acc k =>
      acc ++ (recs.filter (fun b =>
        !b.isDeleted &&
          b.birthdate.month == (addDays userToday k).month &&
          b.birthdate.day == (addDays userToday k).day)).map (fun b => (b, k)))
    []

/-- The age annotated on each entry of the upcoming reminder,
`_send_upcoming_reminder` line 145:
`date.today().year - birthday.birthdate.year + 1`, where `date.today()`
is the server's date. -/
def upcomingAnnotatedAge (serverToday : Date) (b : Brec) : Int :=
  (serverToday.year : Int) - (b.birthdate.year : Int) + 1

/-- Definition `turningAge` as the spec defines it (§4.3): `age(record, today) + 1`,
the age the person becomes on the upcoming occurrence. -/
def turningAge (b t : Date) : Int := ageAt b t + 1

/-! ### Concrete fixtures used by witnesses and counterexamples -/

def johnRec : Brec := ⟨1, "John", ⟨1990, 9, 27⟩, "family", none, none, false⟩

def leapRec : Brec := ⟨1, "Leap", ⟨1996, 2, 29⟩, "friend", none, none, false⟩

def picRec : Brec :=
  ⟨1, "Pic", ⟨1990, 1, 1⟩, "friend", some "https://imgur.com/a.png",
    some "met at work", false⟩

/-- A record whose age at `⟨2024, 6, 1⟩` is `2024 - y`. -/
def janRec (y : Nat) : Brec := ⟨y, "A", ⟨y, 1, 1⟩, "friend", none, none, false⟩

/-! ## Helper lemmas: calendar arithmetic -/

theorem isLeap_iff (y : Nat) :
    isLeap y = true ↔ ((y % 4 = 0 ∧ y % 100 ≠ 0) ∨ y % 400 = 0) := by
  simp [isLeap, Bool.or_eq_true, Bool.and_eq_true, beq_iff_eq, bne_iff_ne]

theorem validMD_iff (L : Bool) (m d : Nat) :
    validMD L m d = true ↔ 1 ≤ m ∧ m ≤ 12 ∧ 1 ≤ d ∧ d ≤ daysInMonth L m := by
  simp [validMD, Bool.and_eq_true, decide_eq_true_eq]
  omega

theorem validDate_iff (y m d : Nat) :
    validDate ⟨y, m, d⟩ = true ↔
      1 ≤ y ∧ y ≤ 9999 ∧ validMD (isLeap y) m d = true := by
  simp [validDate, Bool.and_eq_true, decide_eq_true_eq]
  tauto

theorem daysInMonth_le (L : Bool) (m : Nat) : daysInMonth L m ≤ 31 := by
  unfold daysInMonth
  rcases L <;>
    rcases m with _ | _ | _ | _ | _ | _ | _ | _ | _ | _ | _ | _ | _ | n <;> simp

theorem doy_bounds (L : Bool) (m d : Nat) (h : validMD L m d = true) :
    1 ≤ dayOfYear L m d ∧ dayOfYear L m d ≤ 365 + (if L then 1 else 0) := by
  have hb := (validMD_iff L m d).mp h
  have hdim := daysInMonth_le L m
  have key : ∀ m < 13, ∀ d < 32, validMD L m d = true →
      1 ≤ dayOfYear L m d ∧ dayOfYear L m d ≤ 365 + (if L then 1 else 0) := by
    rcases L <;> decide
  exact key m (by omega) d (by omega) h

theorem dbm_step (L : Bool) :
    ∀ m < 13, ∀ m' < 13, m < m' → 1 ≤ m →
      daysBeforeMonth L m + daysInMonth L m ≤ daysBeforeMonth L m' := by
  rcases L <;> decide

theorem doy_one (L : Bool) :
    ∀ m < 13, ∀ d < 32, validMD L m d = true →
      dayOfYear L m d = 1 → m = 1 := by
  rcases L <;> decide

theorem doy_lt_iff (L : Bool) (m d m' d' : Nat)
    (h : validMD L m d = true) (h' : validMD L m' d' = true) :
    dayOfYear L m d < dayOfYear L m' d' ↔ (m < m' ∨ (m = m' ∧ d < d')) := by
  obtain ⟨h1, h2, h3, h4⟩ := (validMD_iff L m d).mp h
  obtain ⟨h1', h2', h3', h4'⟩ := (validMD_iff L m' d').mp h'
  simp only [dayOfYear]
  rcases Nat.lt_trichotomy m m' with hlt | heq | hgt
  · have hstep := dbm_step L m (by omega) m' (by omega) hlt h1
    constructor
    · intro _
      exact Or.inl hlt
    · intro _
      omega
  · subst heq
    omega
  · have hstep := dbm_step L m' (by omega) m (by omega) hgt h1'
    constructor
    · intro hcon
      omega
    · intro hcon
      rcases hcon with hc | ⟨hc, _⟩ <;> omega

theorem leapsBefore_succ (y : Nat) (hy : 1 ≤ y) :
    leapsBefore (y + 1) = leapsBefore y + (if isLeap y then 1 else 0) := by
  have e : y - 1 + 1 = y := Nat.succ_pred_eq_of_pos hy
  have h4 : y / 4 = (y - 1) / 4 + if y % 4 = 0 then 1 else 0 := by
    conv_lhs => rw [← e]
    rw [Nat.succ_div, e]
    congr 1
    simp [Nat.dvd_iff_mod_eq_zero]
  have h100 : y / 100 = (y - 1) / 100 + if y % 100 = 0 then 1 else 0 := by
    conv_lhs => rw [← e]
    rw [Nat.succ_div, e]
    congr 1
    simp [Nat.dvd_iff_mod_eq_zero]
  have h400 : y / 400 = (y - 1) / 400 + if y % 400 = 0 then 1 else 0 := by
    conv_lhs => rw [← e]
    rw [Nat.succ_div, e]
    congr 1
    simp [Nat.dvd_iff_mod_eq_zero]
  have m1 : (y - 1) / 100 ≤ (y - 1) / 4 :=
    Nat.div_le_div_left (by norm_num) (by norm_num)
  have m2 : y / 100 ≤ y / 4 := Nat.div_le_div_left (by norm_num) (by norm_num)
  cases hL : isLeap y
  · have hl := (isLeap_iff y).not.mp (by simp [hL])
    push_neg at hl
    simp only [leapsBefore, Nat.add_sub_cancel, if_false]
    rw [h4, h100, h400]
    by_cases d4 : y % 4 = 0 <;> by_cases d100 : y % 100 = 0 <;>
      by_cases d400 : y % 400 = 0 <;> simp_all <;> omega
  · have hl := (isLeap_iff y).mp hL
    simp only [leapsBefore, Nat.add_sub_cancel, if_true]
    rw [h4, h100, h400]
    by_cases d4 : y % 4 = 0 <;> by_cases d100 : y % 100 = 0 <;>
      by_cases d400 : y % 400 = 0 <;> simp_all <;> omega

theorem not_both_leap (y : Nat) : ¬(isLeap y = true ∧ isLeap (y + 1) = true) := by
  intro ⟨h1, h2⟩
  rw [isLeap_iff] at h1 h2
  omega

theorem dbm_leapdiff :
    ∀ m < 13, daysBeforeMonth true m =
      daysBeforeMonth false m + (if 3 ≤ m then 1 else 0) := by
  decide

/-- The day-count gain when the same month/day moves one year later. -/
def yearStep (y m : Nat) : Nat :=
  if isLeap y then (if 3 ≤ m then 365 else 366)
  else if isLeap (y + 1) then (if 3 ≤ m then 366 else 365)
  else 365

theorem yearStep_bounds (y m : Nat) : 365 ≤ yearStep y m ∧ yearStep y m ≤ 366 := by
  unfold yearStep
  split_ifs <;> omega

theorem yearStep_of_leap_early (y m : Nat) (hL : isLeap y = true)
    (hm : m < 3) : yearStep y m = 366 := by
  unfold yearStep
  rw [if_pos hL, if_neg (by omega)]

/-- Moving the same month/day one year later advances the day number by
the length of the year spanned: 365 or 366 after the February cutoff. -/
theorem rataDie_succ_eq (y m d : Nat) (hy : 1 ≤ y) (hm : m ≤ 12) :
    rataDie ⟨y + 1, m, d⟩ = rataDie ⟨y, m, d⟩ + yearStep y m := by
  have hlb := leapsBefore_succ y hy
  have hnb := not_both_leap y
  have hdiff := dbm_leapdiff m (by omega)
  simp only [rataDie, dayOfYear, Nat.add_sub_cancel]
  unfold yearStep
  split_ifs with hL h3 hL' h3'
  · rw [if_pos hL] at hlb
    have hL' : isLeap (y + 1) = false := by
      cases hval : isLeap (y + 1)
      · rfl
      · exact absurd ⟨hL, hval⟩ hnb
    rw [hL, hL', hdiff, if_pos h3]
    omega
  · rw [if_pos hL] at hlb
    have hL' : isLeap (y + 1) = false := by
      cases hval : isLeap (y + 1)
      · rfl
      · exact absurd ⟨hL, hval⟩ hnb
    rw [hL, hL', hdiff, if_neg h3]
    omega
  · rw [Bool.not_eq_true] at hL
    rw [if_neg (by simp [hL])] at hlb
    rw [hL, hL', hdiff, if_pos h3']
    omega
  · rw [Bool.not_eq_true] at hL
    rw [if_neg (by simp [hL])] at hlb
    rw [hL, hL', hdiff, if_neg h3']
    omega
  · rw [Bool.not_eq_true] at hL
    rw [Bool.not_eq_true] at hL'
    rw [if_neg (by simp [hL])] at hlb
    rw [hL, hL']
    omega

theorem doy_pos (L : Bool) (m d : Nat) (h : validMD L m d = true) :
    1 ≤ dayOfYear L m d :=
  (doy_bounds L m d h).1

theorem doy_le_366 (L : Bool) (m d : Nat) (h : validMD L m d = true) :
    dayOfYear L m d ≤ 366 := by
  have hb := (doy_bounds L m d h).2
  rcases L <;> simp at hb <;> omega

theorem doy_le_365_of_not_leap (m d : Nat) (h : validMD false m d = true) :
    dayOfYear false m d ≤ 365 := by
  have hb := (doy_bounds false m d h).2
  simpa using hb

theorem doy_eq_one (L : Bool) (m d : Nat) (h : validMD L m d = true)
    (h1 : dayOfYear L m d = 1) : m = 1 := by
  obtain ⟨hm1, hm2, hd1, hd2⟩ := (validMD_iff L m d).mp h
  have hdim := daysInMonth_le L m
  exact doy_one L m (by omega) d (by omega) h h1

theorem dateLt_same_year (y m d m' d' : Nat) :
    dateLt ⟨y, m, d⟩ ⟨y, m', d'⟩ = true ↔ (m < m' ∨ (m = m' ∧ d < d')) := by
  simp [dateLt, Bool.or_eq_true, Bool.and_eq_true, decide_eq_true_eq, beq_iff_eq]

theorem isBirthdayOn_iff (b t : Date) :
    isBirthdayOn b t = true ↔ (b.month = t.month ∧ b.day = t.day) := by
  simp [isBirthdayOn, Bool.and_eq_true, beq_iff_eq]

theorem daysBetween_same_year (y m d m' d' : Nat) :
    daysBetween ⟨y, m, d⟩ ⟨y, m', d'⟩ =
      (dayOfYear (isLeap y) m d : Int) - dayOfYear (isLeap y) m' d' := by
  simp only [daysBetween, rataDie]
  push_cast
  ring

/-- C4: for every active record and reference date on which the
computation of `get_user_stats` lines 266-288 is defined, the
days-until-next-occurrence value lies in `[0, 366]`, and it equals `0`
iff the record's birth month and day equal today's (`isBirthdayOn`). -/
theorem daysUntilNext_bounds (b t : Date) (hb : validDate b = true)
    (ht : validDate t = true) (n : Int) (h : daysUntilNext b t = some n) :
    0 ≤ n ∧ n ≤ 366 ∧ (n = 0 ↔ isBirthdayOn b t = true) := by
  obtain ⟨ty, tm, td⟩ := t
  obtain ⟨byr, bm, bd⟩ := b
  obtain ⟨hty1, hty2, htmd⟩ := (validDate_iff ty tm td).mp ht
  rw [isBirthdayOn_iff]
  show 0 ≤ n ∧ n ≤ 366 ∧ (n = 0 ↔ (bm = tm ∧ bd = td))
  by_cases hv : validDate ⟨ty, bm, bd⟩ = true
  case neg =>
    exfalso
    simp only [daysUntilNext, replaceMD] at h
    rw [if_neg hv] at h
    simp at h
  obtain ⟨_, _, hbmd⟩ := (validDate_iff ty bm bd).mp hv
  obtain ⟨hbm1, hbm2, hbd1, hbd2⟩ := (validMD_iff _ bm bd).mp hbmd
  obtain ⟨htm1, htm2, htd1, htd2⟩ := (validMD_iff _ tm td).mp htmd
  have hp1 := doy_pos _ bm bd hbmd
  have hp2 := doy_pos _ tm td htmd
  have hq1 := doy_le_366 _ bm bd hbmd
  have hq2 := doy_le_366 _ tm td htmd
  have hbt := doy_lt_iff _ bm bd tm td hbmd htmd
  have htb := doy_lt_iff _ tm td bm bd htmd hbmd
  simp only [daysUntilNext, replaceMD, replaceYear] at h
  rw [if_pos hv] at h
  simp only at h
  by_cases hlt : dateLt ⟨ty, bm, bd⟩ ⟨ty, tm, td⟩ = true
  case neg =>
    rw [if_neg hlt] at h
    rw [dateLt_same_year] at hlt
    simp only [Option.some.injEq] at h
    rw [daysBetween_same_year] at h
    subst h
    refine ⟨by omega, by omega, ?_⟩
    omega
  case pos =>
    rw [if_pos hlt] at h
    rw [dateLt_same_year] at hlt
    by_cases hv2 : validDate ⟨ty + 1, bm, bd⟩ = true
    case neg =>
      exfalso
      rw [if_neg hv2] at h
      simp at h
    rw [if_pos hv2] at h
    simp only [Option.some.injEq] at h
    have hstep := rataDie_succ_eq ty bm bd hty1 (by omega)
    have hys := yearStep_bounds ty bm
    have hdoyb : dayOfYear (isLeap ty) bm bd < dayOfYear (isLeap ty) tm td :=
      hbt.mpr hlt
    have hn : n = (yearStep ty bm : Int) +
        dayOfYear (isLeap ty) bm bd - dayOfYear (isLeap ty) tm td := by
      have E2 := daysBetween_same_year ty bm bd tm td
      simp only [daysBetween] at E2 h
      omega
    have hne : n ≠ 0 := by
      intro hn0
      rw [hn0] at hn
      cases hL : isLeap ty
      · have h365 := doy_le_365_of_not_leap tm td (by rwa [hL] at htmd)
        rw [hL] at hn hp1 hp2 hq1 hq2 hdoyb
        omega
      · rw [hL] at hn hp1 hp2 hq1 hq2 hdoyb
        have hdoyt366 : dayOfYear true tm td = 366 := by omega
        have hdoyb1 : dayOfYear true bm bd = 1 := by omega
        have hbm1' : bm = 1 := doy_eq_one true bm bd (by rwa [hL] at hbmd) hdoyb1
        have h366 := yearStep_of_leap_early ty bm hL (by omega)
        omega
    refine ⟨by omega, by omega, iff_of_false hne ?_⟩
    omega

/-- Witness for C4 at a concrete input: Alice's birthday on the
reference date itself gives zero days until the next occurrence. -/
theorem daysUntilNext_bounds_witness :
    0 ≤ (0 : Int) ∧ (0 : Int) ≤ 366 ∧
      ((0 : Int) = 0 ↔ isBirthdayOn ⟨1990, 9, 27⟩ ⟨2024, 9, 27⟩ = true) :=
  daysUntilNext_bounds ⟨1990, 9, 27⟩ ⟨2024, 9, 27⟩ (by decide) (by decide) 0
    (by decide)

theorem pairGt_iff (a1 a2 b1 b2 : Nat) :
    pairGt a1 a2 b1 b2 = true ↔ (b1 < a1 ∨ (a1 = b1 ∧ b2 < a2)) := by
  simp [pairGt, Bool.or_eq_true, Bool.and_eq_true, decide_eq_true_eq, beq_iff_eq]

theorem dateLe_iff (a b : Date) :
    dateLe a b = true ↔
      (a.year < b.year ∨
        (a.year = b.year ∧
          (a.month < b.month ∨ (a.month = b.month ∧ a.day ≤ b.day)))) := by
  obtain ⟨ay, am, ad⟩ := a
  obtain ⟨by2, bm2, bd2⟩ := b
  simp [dateLe, dateLt, Bool.or_eq_true, Bool.and_eq_true, decide_eq_true_eq,
    beq_iff_eq, Date.mk.injEq]
  omega

/-- C3 counterexample: `parse_date` accepts birth years up to
`currentYear + 50`, so a record with birthdate 2070-01-01 is valid in
2025, yet its computed age at 2025-06-01 is negative. -/
theorem age_negative_from_valid_parse :
    parseDate 2025 "2070-01-01" = some ⟨2070, 1, 1⟩ ∧
      ageAt ⟨2070, 1, 1⟩ ⟨2025, 6, 1⟩ = -45 ∧
      ¬(0 ≤ ageAt ⟨2070, 1, 1⟩ ⟨2025, 6, 1⟩) := by
  refine ⟨by decide, by decide, by decide⟩

/-- C3 amended: for a record whose birthdate string passed `parse_date`
and whose birthdate is on or before the reference date, the age computed
by `get_user_stats` lines 252-255 is non-negative.  (The `parse_date`
year bound alone admits future birthdates, whose age is negative.) -/
theorem ageAt_nonneg (nowYear : Nat) (s : String) (b t : Date)
    (_hpd : parseDate nowYear s = some b) (hle : dateLe b t = true) :
    0 ≤ ageAt b t := by
  rw [dateLe_iff] at hle
  unfold ageAt
  by_cases hg : pairGt b.month b.day t.month t.day = true
  · rw [if_pos hg]
    rw [pairGt_iff] at hg
    omega
  · rw [if_neg hg]
    omega

/-- Witness for C3 amended at a concrete input. -/
theorem ageAt_nonneg_witness : 0 ≤ ageAt ⟨1995, 9, 27⟩ ⟨2024, 9, 27⟩ :=
  ageAt_nonneg 2024 "1995-09-27" ⟨1995, 9, 27⟩ ⟨2024, 9, 27⟩ (by decide)
    (by decide)

/-! ## The February-29 failure of `get_user_stats` -/

theorem foldl_nextStep_none (t : Date) (l : List Brec) :
    l.foldl (nextStep t) none = none := by
  induction l with
  | nil => rfl
  | cons b bs ih =>
    simp only [List.foldl_cons]
    exact ih

theorem foldl_nextStep_none_of_mem (t : Date) (l : List Brec) (b : Brec)
    (hmem : b ∈ l) (hbad : daysUntilNext b.birthdate t = none) :
    ∀ acc, l.foldl (nextStep t) acc = none := by
  induction l with
  | nil => cases hmem
  | cons x xs ih =>
    intro acc
    rcases List.mem_cons.mp hmem with hx | hx
    · subst hx
      simp only [List.foldl_cons]
      have hstep : nextStep t acc b = none := by
        unfold nextStep
        cases acc with
        | none => rfl
        | some cur => rw [hbad]
      rw [hstep]
      exact foldl_nextStep_none t xs
    · simp only [List.foldl_cons]
      exact ih hx _

theorem feb29_invalid (y : Nat) (hnl : isLeap y = false) :
    validDate ⟨y, 2, 29⟩ = false := by
  simp [validDate, validMD, daysInMonth, hnl]

theorem daysUntilNext_feb29_none (bdt t : Date) (hm : bdt.month = 2)
    (hd : bdt.day = 29) (hnl : isLeap t.year = false) :
    daysUntilNext bdt t = none := by
  unfold daysUntilNext replaceMD
  rw [hm, hd]
  rw [if_neg (by simp [feb29_invalid t.year hnl])]

/-- C5: a user holding an active February-29 record makes
`get_user_stats` raise an unhandled `ValueError` (modelled as `none`)
whenever the current date falls in a non-leap year: the operation is
not total over valid stored records. -/
theorem getUserStats_feb29_raises (rs : List Brec) (t : Date) (b : Brec)
    (hmem : b ∈ rs) (hact : b.isDeleted = false) (hm : b.birthdate.month = 2)
    (hd : b.birthdate.day = 29) (hnl : isLeap t.year = false) :
    getUserStats rs t = none := by
  have hmemf : b ∈ rs.filter (fun r => !r.isDeleted) :=
    List.mem_filter.mpr ⟨hmem, by rw [hact]; rfl⟩
  have hlen : (rs.filter (fun r => !r.isDeleted)).length ≠ 0 := by
    intro h0
    rw [List.length_eq_zero] at h0
    rw [h0] at hmemf
    cases hmemf
  have hbad := daysUntilNext_feb29_none b.birthdate t hm hd hnl
  have hfold : nextBirthdayFold (rs.filter (fun r => !r.isDeleted)) t = none :=
    foldl_nextStep_none_of_mem t _ b hmemf hbad (some none)
  unfold getUserStats
  rw [if_neg hlen]
  simp only [hfold]

/-- Witness for C5 at a concrete input: a single Feb-29 record with the
current date 2025-03-01. -/
theorem getUserStats_feb29_raises_witness :
    getUserStats [leapRec] ⟨2025, 3, 1⟩ = none :=
  getUserStats_feb29_raises [leapRec] ⟨2025, 3, 1⟩ leapRec (by decide)
    (by decide) (by decide) (by decide) (by decide)

/-- C1: the scheduler's upcoming reminder annotates the wrong age.  For
John (born 1990-09-27), matched at offset 2 from local today 2024-09-25,
the code (`_send_upcoming_reminder` line 145) annotates
`2024 - 1990 + 1 = 35`, while `age(record, today) + 1 = 34` — the age he
actually turns on 2024-09-27. -/
theorem upcoming_age_annotation_off_by_one :
    (johnRec, 2) ∈ upcomingMatches [johnRec] ⟨2024, 9, 25⟩ ∧
      upcomingAnnotatedAge ⟨2024, 9, 25⟩ johnRec = 35 ∧
      turningAge johnRec.birthdate ⟨2024, 9, 25⟩ = 34 ∧
      upcomingAnnotatedAge ⟨2024, 9, 25⟩ johnRec ≠
        turningAge johnRec.birthdate ⟨2024, 9, 25⟩ := by
  refine ⟨by decide, by decide, by decide, by decide⟩

/-! ## Duplicate handling and soft-delete idempotence -/

theorem countP_cons_true {p : Brec → Bool} {x : Brec} (hx : p x = true)
    (l : List Brec) : List.countP p (x :: l) = List.countP p l + 1 := by
  rw [List.countP_cons, hx]
  simp

theorem countP_cons_false {p : Brec → Bool} {x : Brec} (hx : p x = false)
    (l : List Brec) : List.countP p (x :: l) = List.countP p l := by
  rw [List.countP_cons, hx]
  simp

theorem findFirst_of_exists (p : Brec → Bool) (l : List Brec)
    (h : ∃ r ∈ l, p r = true) :
    ∃ r, findFirst p l = some r ∧ p r = true ∧ r ∈ l := by
  induction l with
  | nil =>
    obtain ⟨r, hr, _⟩ := h
    cases hr
  | cons x xs ih =>
    by_cases hx : p x = true
    · exact ⟨x, by simp [findFirst, hx], hx, List.mem_cons_self x xs⟩
    · have hx' : p x = false := by
        cases hv : p x
        · rfl
        · exact absurd hv hx
      obtain ⟨r, hmem, hpr⟩ := h
      rcases List.mem_cons.mp hmem with he | hm
      · subst he
        exact absurd hpr hx
      · obtain ⟨r2, h1, h2, h3⟩ := ih ⟨r, hm, hpr⟩
        exact ⟨r2, by simp [findFirst, hx', h1], h2, List.mem_cons_of_mem x h3⟩

theorem updateFirst_eq_none (p : Brec → Bool) (f : Brec → Brec)
    (l : List Brec) : updateFirst p f l = none ↔ ∀ r ∈ l, p r = false := by
  induction l with
  | nil => simp [updateFirst]
  | cons x xs ih =>
    unfold updateFirst
    by_cases hx : p x = true
    · simp [hx]
    · have hx' : p x = false := by
        cases hv : p x
        · rfl
        · exact absurd hv hx
      simp [hx', ih]

theorem updateFirst_countP (p : Brec → Bool) (f : Brec → Brec)
    (hpf : ∀ r, p r = true → p (f r) = false) :
    ∀ (l l' : List Brec), updateFirst p f l = some l' →
      0 < l.countP p ∧ l'.countP p = l.countP p - 1 := by
  intro l
  induction l with
  | nil => intro l' h; cases h
  | cons x xs ih =>
    intro l' h
    unfold updateFirst at h
    by_cases hx : p x = true
    · rw [if_pos hx] at h
      injection h with h
      subst h
      rw [countP_cons_true hx, countP_cons_false (hpf x hx)]
      omega
    · have hx' : p x = false := by
        cases hv : p x
        · rfl
        · exact absurd hv hx
      rw [if_neg hx] at h
      cases hrec : updateFirst p f xs with
      | none =>
        rw [hrec] at h
        cases h
      | some ys =>
        rw [hrec] at h
        injection h with h
        subst h
        obtain ⟨hc1, hc2⟩ := ih ys hrec
        rw [countP_cons_false hx', countP_cons_false hx', hc2]
        omega

/-- C9: restoring an already-active record fails with the
not-found-for-deleted message and changes nothing; after a successful
delete, a second delete of the same name fails with the not-found
message and changes nothing.  The hypothesis of the second part is the
documented invariant of at most one active record per case-insensitive
name. -/
theorem deleteBirthday_restore_idem (st : List Brec) (name : String) :
    ((∀ r ∈ st, matchName name r = true → r.isDeleted = false) →
      restoreDeletedBirthday st name =
        (⟨false, "No deleted birthday found for " ++ name⟩, st)) ∧
    (st.countP (fun r => matchName name r && !r.isDeleted) ≤ 1 →
      (deleteBirthday st name).1.success = true →
      deleteBirthday (deleteBirthday st name).2 name =
        (⟨false, "Birthday for " ++ name ++ " not found"⟩,
          (deleteBirthday st name).2)) := by
  constructor
  · intro hact
    have hnone : updateFirst (fun r => matchName name r && r.isDeleted)
        (fun r => { r with isDeleted := false }) st = none := by
      rw [updateFirst_eq_none]
      intro r hr
      cases hmn : matchName name r
      · simp
      · simp [hact r hr hmn]
    unfold restoreDeletedBirthday
    rw [hnone]
  · intro hone hsucc
    cases hup : updateFirst (fun r => matchName name r && !r.isDeleted)
        (fun r => { r with isDeleted := true }) st with
    | none =>
      have hfail : deleteBirthday st name =
          (⟨false, "Birthday for " ++ name ++ " not found"⟩, st) := by
        unfold deleteBirthday
        rw [hup]
      rw [hfail] at hsucc
      simp at hsucc
    | some st1 =>
      have hd1 : deleteBirthday st name =
          (⟨true, "Birthday for " ++ name ++ " deleted"⟩, st1) := by
        unfold deleteBirthday
        rw [hup]
      rw [hd1]
      show deleteBirthday st1 name =
        (⟨false, "Birthday for " ++ name ++ " not found"⟩, st1)
      have hpf : ∀ r : Brec, (matchName name r && !r.isDeleted) = true →
          (matchName name { r with isDeleted := true } &&
            !(Brec.isDeleted { r with isDeleted := true })) = false := by
        intro r _
        simp [matchName]
      obtain ⟨hpos, hcount⟩ := updateFirst_countP _ _ hpf st st1 hup
      have hzero : st1.countP (fun r => matchName name r && !r.isDeleted) = 0 := by
        omega
      have hnone2 : updateFirst (fun r => matchName name r && !r.isDeleted)
          (fun r => { r with isDeleted := true }) st1 = none := by
        rw [updateFirst_eq_none]
        intro r hr
        have hmem := List.countP_eq_zero.mp hzero r hr
        cases hv : (matchName name r && !r.isDeleted)
        · rfl
        · exact absurd hv hmem
      unfold deleteBirthday
      rw [hnone2]

/-- Witness for C9 at a concrete input: restore on the active John
record fails and preserves the state; deleting John twice fails the
second time and preserves the once-deleted state. -/
theorem deleteBirthday_restore_idem_witness :
    restoreDeletedBirthday [johnRec] "John" =
      (⟨false, "No deleted birthday found for " ++ "John"⟩, [johnRec]) ∧
    deleteBirthday (deleteBirthday [johnRec] "John").2 "John" =
      (⟨false, "Birthday for " ++ "John" ++ " not found"⟩,
        (deleteBirthday [johnRec] "John").2) :=
  ⟨(deleteBirthday_restore_idem [johnRec] "John").1 (by decide),
    (deleteBirthday_restore_idem [johnRec] "John").2 (by decide) (by decide)⟩

/-- C8: when an active record with the given case-insensitive name
already exists (uniquely, per the documented invariant), a further
`add_birthday` call with valid inputs returns the structured duplicate
failure, leaves the state untouched, and the name still has exactly one
active record. -/
theorem addBirthday_duplicate_fails (nowYear : Nat) (st : List Brec)
    (uid : Nat) (name dateStr category : String)
    (imageUrl notes : Option String) (bd : Date)
    (hn : validateName name = true)
    (hbd : parseDate nowYear dateStr = some bd)
    (hc : validateCategory category = true)
    (himg : (match imageUrl with
             | some u => !(u.data == []) && !(validateImageUrl wellFormedUrl u)
             | none => false) = false)
    (hcount : st.countP (matchName name) = 1)
    (hact : ∀ r ∈ st, matchName name r = true → r.isDeleted = false) :
    addBirthday nowYear st uid name dateStr category imageUrl notes =
      (⟨false, "Birthday for " ++ name ++ " already exists"⟩, st) ∧
    st.countP (fun r => matchName name r && !r.isDeleted) = 1 := by
  obtain ⟨r, hfind, hpr, hmem⟩ :=
    findFirst_of_exists (matchName name) st
      (List.countP_pos_iff.mp (by omega))
  have hract := hact r hmem hpr
  constructor
  · simp only [addBirthday, hn, hbd, hc, himg, hfind, hract, Bool.not_true,
      Bool.not_false, Bool.false_eq_true, if_false, if_true]
  · have hcong : ∀ x ∈ st,
        ((fun r => matchName name r && !r.isDeleted) x = true) ↔
          (matchName name x = true) := by
      intro x hx
      constructor
      · intro h
        have h2 : (matchName name x && !x.isDeleted) = true := h
        cases hm : matchName name x
        · rw [hm] at h2
          simp at h2
        · rfl
      · intro h
        show (matchName name x && !x.isDeleted) = true
        rw [h, hact x hx h]
        rfl
    rw [List.countP_congr hcong, hcount]

/-- Witness for C8 at a concrete input: adding John again over a state
already holding an active John. -/
theorem addBirthday_duplicate_fails_witness :
    addBirthday 2024 [johnRec] 1 "John" "1995-09-27" "family" none none =
      (⟨false, "Birthday for " ++ "John" ++ " already exists"⟩, [johnRec]) ∧
    List.countP (fun r => matchName "John" r && !r.isDeleted) [johnRec] = 1 :=
  addBirthday_duplicate_fails 2024 [johnRec] 1 "John" "1995-09-27" "family"
    none none ⟨1995, 9, 27⟩ (by decide) (by decide) (by decide) (by decide)
    (by decide) (by decide)

/-! ## Image-URL validation -/

/-- C10 counterexample: the URL `https://evil.com/x?u=imgur.com` is
well-formed, its path carries no image extension, and its host is
`evil.com`, not an allowlist member — yet `validate_image_url` accepts
it because `imgur.com` occurs as a substring of the URL. -/
theorem validateImageUrl_substring_defeat :
    validateImageUrl wellFormedUrl "https://evil.com/x?u=imgur.com" = true ∧
      specImageUrlValid wellFormedUrl "https://evil.com/x?u=imgur.com" = false := by
  refine ⟨by decide, by decide⟩

/-- C10 amended: `validate_image_url` accepts the empty input, and a
non-empty input exactly when it is well-formed and either the whole
lowercased URL string ends with a known image extension, or the whole
lowercased URL string contains one of the known image-host names as a
substring — not the path-extension/host-membership test of the claim. -/
theorem validateImageUrl_characterization (wf : String → Bool) (url : String) :
    validateImageUrl wf url = true ↔
      (url.data = [] ∨
        (wf url = true ∧
          ((∃ e ∈ imageExtensions,
              endsWithChars (lowerList url.data) e.data = true) ∨
           (∃ hst ∈ imageHosts,
              containsChars (lowerList url.data) hst.data = true)))) := by
  unfold validateImageUrl
  split_ifs with h1 h2 <;>
    simp_all [List.any_eq_true, beq_iff_eq, Bool.not_eq_true]

/-! ## Monthly distributions -/

theorem validDate_month_bounds (dt : Date) (h : validDate dt = true) :
    1 ≤ dt.month ∧ dt.month ≤ 12 := by
  obtain ⟨y, m, d⟩ := dt
  have h1 := ((validDate_iff y m d).mp h).2.2
  have h2 := (validMD_iff _ m d).mp h1
  exact ⟨h2.1, h2.2.1⟩

theorem monthName_inj :
    ∀ a < 13, ∀ b < 13, 1 ≤ a → 1 ≤ b → monthName a = monthName b → a = b := by
  decide

theorem assocFind_bumpIns_same (k : String) (l : List (String × Nat)) :
    assocFind k (bumpIns k l) = some ((assocFind k l).getD 0 + 1) := by
  induction l with
  | nil => simp [bumpIns, assocFind]
  | cons p rest ih =>
    obtain ⟨k2, v⟩ := p
    by_cases hk : k2 = k
    · subst hk
      simp [bumpIns, assocFind]
    · simp [bumpIns, assocFind, hk, ih]

theorem assocFind_bumpIns_other (k k2 : String) (h : k2 ≠ k)
    (l : List (String × Nat)) :
    assocFind k (bumpIns k2 l) = assocFind k l := by
  induction l with
  | nil => simp [bumpIns, assocFind, h]
  | cons p rest ih =>
    obtain ⟨k3, v⟩ := p
    by_cases h2 : k3 = k2
    · subst h2
      have h3 : k3 ≠ k := h
      simp [bumpIns, assocFind, h3]
    · by_cases h3 : k3 = k
      · subst h3
        have hks : ¬(k3 = k2) := h2
        simp [bumpIns, assocFind, hks]
      · simp [bumpIns, assocFind, h2, h3, ih]

theorem monthly_fold (m : Nat) (hm1 : 1 ≤ m) (hm2 : m ≤ 12) :
    ∀ (bs : List Brec) (l : List (String × Nat)) (v : Nat),
      (∀ b ∈ bs, validDate b.birthdate = true) →
      assocFind (monthName m) l = some v →
      assocFind (monthName m)
        (bs.foldl (fun acc b => bumpIns (monthName b.birthdate.month) acc) l) =
        some (v + bs.countP (fun b => b.birthdate.month == m)) := by
  intro bs
  induction bs with
  | nil =>
    intro l v _ hf
    simpa [List.countP] using hf
  | cons b rest ih =>
    intro l v hv hf
    simp only [List.foldl_cons]
    have hvb := hv b (List.mem_cons_self b rest)
    have hmb := validDate_month_bounds b.birthdate hvb
    by_cases hbm : b.birthdate.month = m
    · rw [hbm]
      have h2 := assocFind_bumpIns_same (monthName m) l
      rw [hf] at h2
      simp only [Option.getD_some] at h2
      have h3 := ih (bumpIns (monthName m) l) (v + 1)
        (fun x hx => hv x (List.mem_cons_of_mem b hx)) h2
      rw [h3, countP_cons_true (by simp [hbm])]
      congr 1
      omega
    · have hbne : monthName b.birthdate.month ≠ monthName m := by
        intro heq
        exact hbm (monthName_inj b.birthdate.month (by omega) m (by omega)
          (by omega) (by omega) heq)
      have h2 : assocFind (monthName m)
          (bumpIns (monthName b.birthdate.month) l) = some v := by
        rw [assocFind_bumpIns_other _ _ hbne, hf]
      have h3 := ih (bumpIns (monthName b.birthdate.month) l) v
        (fun x hx => hv x (List.mem_cons_of_mem b hx)) h2
      rw [h3, countP_cons_false (by simp [hbm])]

theorem monthInit_find :
    ∀ m < 13, 1 ≤ m → assocFind (monthName m) monthInit = some 0 := by
  decide

theorem assocFind_monthMap (g : Nat → Nat) (m : Nat) (hm1 : 1 ≤ m)
    (hm2 : m ≤ 12) :
    assocFind (shortMonthName m)
      ((List.range' 1 12).map (fun i => (shortMonthName i, g i))) =
      some (g m) := by
  have h12 : List.range' 1 12 = [1, 2, 3, 4, 5, 6, 7, 8, 9, 10, 11, 12] := by
    decide
  rw [h12]
  interval_cases m <;> simp [assocFind, shortMonthName]

/-- C2 counterexample: over zero records the user statistics return an
*empty* monthly mapping (no month keys at all), and the system analytics
return the error value — not a twelve-month zero-filled histogram. -/
theorem monthly_zero_records_empty :
    (getUserStats [] ⟨2024, 9, 25⟩).map (fun s => s.monthlyDistribution) =
        some [] ∧
      assocFind "January" [] = none ∧
      getAnalyticsReport [] ⟨2024, 9, 25⟩ = none := by
  refine ⟨by decide, by decide, by decide⟩

/-- C2 amended: for a user with zero active records `get_user_stats`
returns an empty monthly mapping (not an error), and system analytics
over zero records returns the error value; whenever at least one record
is present, the monthly distribution of both computations carries all
twelve month keys, zero-filled where no record falls. -/
theorem monthlyDistribution_spec (rs : List Brec) (today now : Date)
    (m : Nat) (hm : 1 ≤ m ∧ m ≤ 12)
    (hv : ∀ b ∈ rs, validDate b.birthdate = true) :
    ((rs.filter (fun b => !b.isDeleted)).length = 0 →
      getUserStats rs today = some ⟨0, 0, none, [], [], 0, 0⟩) ∧
    (∀ st, getUserStats rs today = some st →
      0 < (rs.filter (fun b => !b.isDeleted)).length →
      assocFind (monthName m) st.monthlyDistribution =
        some ((rs.filter (fun b => !b.isDeleted)).countP
          (fun b => b.birthdate.month == m))) ∧
    getAnalyticsReport ([] : List Brec) now = none ∧
    (∀ rep, getAnalyticsReport rs now = some rep →
      assocFind (shortMonthName m) rep.monthlyDistribution =
        some (rs.countP (fun b => b.birthdate.month == m && !b.isDeleted))) := by
  obtain ⟨hm1, hm2⟩ := hm
  refine ⟨?_, ?_, by unfold getAnalyticsReport; rfl, ?_⟩
  · intro h0
    unfold getUserStats
    rw [if_pos h0]
  · intro st hst hpos
    unfold getUserStats at hst
    rw [if_neg (by omega)] at hst
    cases hnf : nextBirthdayFold (rs.filter (fun b => !b.isDeleted)) today with
    | none =>
      rw [hnf] at hst
      simp at hst
    | some nb =>
      rw [hnf] at hst
      simp only [Option.some.injEq] at hst
      subst hst
      have hvf : ∀ b ∈ rs.filter (fun b => !b.isDeleted),
          validDate b.birthdate = true :=
        fun b hb => hv b (List.mem_filter.mp hb).1
      show assocFind (monthName m)
          ((rs.filter (fun b => !b.isDeleted)).foldl
            (fun acc b => bumpIns (monthName b.birthdate.month) acc) monthInit) =
        some ((rs.filter (fun b => !b.isDeleted)).countP
          (fun b => b.birthdate.month == m))
      have hres := monthly_fold m hm1 hm2 _ monthInit 0 hvf
        (monthInit_find m (by omega) hm1)
      simpa using hres
  · intro rep hrep
    unfold getAnalyticsReport at hrep
    by_cases h0 : rs.length = 0
    · rw [if_pos h0] at hrep
      cases hrep
    · rw [if_neg h0] at hrep
      simp only [Option.some.injEq] at hrep
      subst hrep
      show assocFind (shortMonthName m)
          ((List.range' 1 12).map (fun i =>
            (shortMonthName i,
              rs.countP (fun b => b.birthdate.month == i && !b.isDeleted)))) =
        some (rs.countP (fun b => b.birthdate.month == m && !b.isDeleted))
      exact assocFind_monthMap
        (fun i => rs.countP (fun b => b.birthdate.month == i && !b.isDeleted))
        m hm1 hm2

/-- Witness for C2 amended at a concrete input: one September record
gives September count 1 under the full month-name key. -/
theorem monthlyDistribution_spec_witness :
    (getUserStats [johnRec] ⟨2024, 9, 25⟩).map
      (fun s => assocFind (monthName 9) s.monthlyDistribution) =
      some (some 1) := by
  have hsome : (getUserStats [johnRec] ⟨2024, 9, 25⟩).isSome = true := by decide
  obtain ⟨st, hst⟩ := Option.isSome_iff_exists.mp hsome
  have h := (monthlyDistribution_spec [johnRec] ⟨2024, 9, 25⟩ ⟨2024, 9, 25⟩ 9
    (by decide) (by decide)).2.1 st hst (by decide)
  rw [hst]
  simp only [Option.map_some']
  rw [h]
  decide

/-! ## The median of the system analytics -/

theorem insertSorted_perm (x : Int) (l : List Int) :
    (insertSorted x l).Perm (x :: l) := by
  induction l with
  | nil => simp [insertSorted]
  | cons y ys ih =>
    simp only [insertSorted]
    split
    · exact List.Perm.refl _
    · exact (List.Perm.cons y ih).trans (List.Perm.swap x y ys)

theorem insertionSort_perm (l : List Int) : (insertionSort l).Perm l := by
  induction l with
  | nil => simp [insertionSort]
  | cons x xs ih =>
    exact (insertSorted_perm x (insertionSort xs)).trans (List.Perm.cons x ih)

theorem insertSorted_sorted (x : Int) (l : List Int)
    (h : List.Sorted (· ≤ ·) l) :
    List.Sorted (· ≤ ·) (insertSorted x l) := by
  induction l with
  | nil => simp [insertSorted]
  | cons y ys ih =>
    simp only [insertSorted]
    split
    · rename_i hxy
      exact List.Sorted.cons hxy h
    · rename_i hxy
      push_neg at hxy
      have hys := h.of_cons
      have htail := ih hys
      rw [List.sorted_cons]
      refine ⟨?_, htail⟩
      intro b hb
      rcases List.mem_cons.mp ((insertSorted_perm x ys).mem_iff.mp hb)
        with h1 | h2
      · subst h1
        exact le_of_lt hxy
      · exact List.rel_of_sorted_cons h b h2

theorem insertionSort_sorted (l : List Int) :
    List.Sorted (· ≤ ·) (insertionSort l) := by
  induction l with
  | nil => simp [insertionSort]
  | cons x xs ih => exact insertSorted_sorted x _ ih

/-- C6 counterexample: with active ages `{1, 2, 3, 4}` the reported
median is `3`, the element at index `n // 2 = 2` of the ascending sort —
the *upper*-middle element, not the lower-middle element `2`. -/
theorem median_not_lower_middle :
    (getAnalyticsReport [janRec 2023, janRec 2020, janRec 2022, janRec 2021]
        ⟨2024, 6, 1⟩).map (fun r => r.ageMedian) = some 3 ∧
      insertionSort
        (agesOf [janRec 2023, janRec 2020, janRec 2022, janRec 2021]
          ⟨2024, 6, 1⟩) = [1, 2, 3, 4] ∧
      ([1, 2, 3, 4] : List Int).getD (4 / 2 - 1) 0 = 2 ∧
      (3 : Int) ≠ 2 := by
  refine ⟨by decide, by decide, by decide, by decide⟩

/-- C6 amended: for every snapshot, the median age of the analytics
report equals the element at index `n // 2` (zero-based) of the ages
sorted ascending — for even-length age lists the *upper*-middle
element; over an empty age list it is `0`.  Stated against any sorted
permutation of the age list. -/
theorem ageMedian_eq_sorted_middle (allRecs : List Brec) (now : Date)
    (rep : AnalyticsReport) (hrep : getAnalyticsReport allRecs now = some rep)
    (s : List Int) (hperm : s.Perm (agesOf allRecs now))
    (hsort : List.Sorted (· ≤ ·) s) :
    rep.ageMedian = s.getD ((agesOf allRecs now).length / 2) 0 := by
  have hs : s = insertionSort (agesOf allRecs now) :=
    List.eq_of_perm_of_sorted
      (hperm.trans (insertionSort_perm (agesOf allRecs now)).symm) hsort
      (insertionSort_sorted _)
  subst hs
  unfold getAnalyticsReport at hrep
  by_cases h0 : allRecs.length = 0
  · rw [if_pos h0] at hrep
    cases hrep
  · rw [if_neg h0] at hrep
    simp only [Option.some.injEq] at hrep
    subst hrep
    show (if (agesOf allRecs now).length = 0 then 0
      else (insertionSort (agesOf allRecs now)).getD
        ((agesOf allRecs now).length / 2) 0) =
      (insertionSort (agesOf allRecs now)).getD
        ((agesOf allRecs now).length / 2) 0
    by_cases hages : (agesOf allRecs now).length = 0
    · rw [if_pos hages]
      rw [List.length_eq_zero] at hages
      have : insertionSort (agesOf allRecs now) = [] := by
        rw [hages]
        rfl
      rw [this]
      rfl
    · rw [if_neg hages]

/-- Witness for C6 amended at a concrete input: ages `{1, 4, 2, 3}`,
sorted permutation `[1, 2, 3, 4]`, median index `4 / 2 = 2`. -/
theorem ageMedian_eq_sorted_middle_witness :
    (getAnalyticsReport [janRec 2023, janRec 2020, janRec 2022, janRec 2021]
        ⟨2024, 6, 1⟩).map (fun r => r.ageMedian) =
      some (([1, 2, 3, 4] : List Int).getD
        ((agesOf [janRec 2023, janRec 2020, janRec 2022, janRec 2021]
          ⟨2024, 6, 1⟩).length / 2) 0) := by
  have hsome : (getAnalyticsReport
      [janRec 2023, janRec 2020, janRec 2022, janRec 2021]
      ⟨2024, 6, 1⟩).isSome = true := by decide
  obtain ⟨rep, hrep⟩ := Option.isSome_iff_exists.mp hsome
  have h := ageMedian_eq_sorted_middle
    [janRec 2023, janRec 2020, janRec 2022, janRec 2021] ⟨2024, 6, 1⟩ rep hrep
    [1, 2, 3, 4] (by decide) (by decide)
  rw [hrep]
  simp only [Option.map_some']
  rw [h]

/-! ## Percentages of the system analytics -/

/-- The rounded value, scaled back by the denominator, overshoots the
exact scaled ratio by at most half a unit: `2·den·round ≤ 20·num + den`. -/
theorem roundTenths_bound (num den : Nat) :
    2 * (den * roundTenths num den) ≤ 20 * num + den := by
  have hdm := Nat.div_add_mod (10 * num) den
  unfold roundTenths
  split_ifs with h1 h2 h3
  · generalize hR : 10 * num % den = r at h1 hdm
    generalize hX : den * (10 * num / den) = X at hdm ⊢
    omega
  · have he : den * (10 * num / den + 1) = den * (10 * num / den) + den := by
      ring
    rw [he]
    generalize hR : 10 * num % den = r at h1 h2 hdm
    generalize hX : den * (10 * num / den) = X at hdm ⊢
    omega
  · generalize hR : 10 * num % den = r at h1 h2 hdm
    generalize hX : den * (10 * num / den) = X at hdm ⊢
    omega
  · have he : den * (10 * num / den + 1) = den * (10 * num / den) + den := by
      ring
    rw [he]
    generalize hR : 10 * num % den = r at h1 h2 hdm
    generalize hX : den * (10 * num / den) = X at hdm ⊢
    omega

/-- A rate whose numerator is at most its positive denominator rounds
to at most 100.0% (1000 tenths). -/
theorem pctTenths_le_1000 (c A : Nat) (hc : c ≤ A) (hA : 0 < A) :
    pctTenths c A ≤ 1000 := by
  unfold pctTenths roundTenths
  have hdm := Nat.div_add_mod (10 * (c * 100)) A
  have hmod : 10 * (c * 100) % A < A := Nat.mod_lt _ hA
  have hle : 10 * (c * 100) ≤ 1000 * A := by omega
  split_ifs with h1 h2 h3
  · by_contra hq
    push_neg at hq
    have hmul : A * 1001 ≤ A * (10 * (c * 100) / A) :=
      Nat.mul_le_mul_left A (by omega)
    generalize hX : A * (10 * (c * 100) / A) = X at hdm hmul
    omega
  · by_contra hq
    push_neg at hq
    have hmul : A * 1000 ≤ A * (10 * (c * 100) / A) :=
      Nat.mul_le_mul_left A (by omega)
    generalize hX : A * (10 * (c * 100) / A) = X at hdm hmul
    omega
  · by_contra hq
    push_neg at hq
    have hmul : A * 1001 ≤ A * (10 * (c * 100) / A) :=
      Nat.mul_le_mul_left A (by omega)
    generalize hX : A * (10 * (c * 100) / A) = X at hdm hmul
    omega
  · by_contra hq
    push_neg at hq
    have hmul : A * 1000 ≤ A * (10 * (c * 100) / A) :=
      Nat.mul_le_mul_left A (by omega)
    generalize hX : A * (10 * (c * 100) / A) = X at hdm hmul
    omega

/-- Any one category string matches at most one of the six fixed
category keys. -/
theorem cat_indicators_le_one (c : String) :
    (if c == "love" then 1 else 0) + (if c == "family" then 1 else 0) +
      (if c == "relative" then 1 else 0) + (if c == "work" then 1 else 0) +
      (if c == "friend" then 1 else 0) + (if c == "other" then 1 else 0) ≤ 1 := by
  by_cases h1 : c = "love"
  · subst h1
    decide
  by_cases h2 : c = "family"
  · subst h2
    decide
  by_cases h3 : c = "relative"
  · subst h3
    decide
  by_cases h4 : c = "work"
  · subst h4
    decide
  by_cases h5 : c = "friend"
  · subst h5
    decide
  by_cases h6 : c = "other"
  · subst h6
    decide
  simp [beq_iff_eq, h1, h2, h3, h4, h5, h6]

/-- The six per-category counts sum to at most the number of records. -/
theorem sum_cat_counts_le (l : List Brec) :
    List.countP (fun b => b.category == "love") l +
      List.countP (fun b => b.category == "family") l +
      List.countP (fun b => b.category == "relative") l +
      List.countP (fun b => b.category == "work") l +
      List.countP (fun b => b.category == "friend") l +
      List.countP (fun b => b.category == "other") l ≤ l.length := by
  induction l with
  | nil => simp
  | cons r rest ih =>
    simp only [List.countP_cons, List.length_cons]
    have hone := cat_indicators_le_one r.category
    omega

/-- C7 counterexample: one active record carrying both an image and
notes gives image rate 100.0% and notes rate 100.0%, so the engagement
dimension's percentages sum to 200%, not at most 100%. -/
theorem engagement_rates_sum_200 :
    (getAnalyticsReport [picRec] ⟨2024, 6, 1⟩).map
        (fun r => r.imageUsageRateTenths + r.notesUsageRateTenths) =
      some 2000 ∧ ¬((2000 : Nat) ≤ 1000) := by
  refine ⟨by decide, by decide⟩

/-- C7 amended: in the analytics report every rate is exactly 0 when
its denominator is 0; each individual percentage (deletion rate, the
six category percentages, the two engagement rates) is at most 100.0%,
with rounding carried out half-even to one decimal on the exact ratio;
the six category percentages sum to at most 100.3% (the rounding of
each term can overshoot by at most 0.05); but the two engagement rates
are independent fractions of the same total and may sum to 200%, so
per-dimension sums are not bounded by 100%. -/
theorem analytics_rates_spec (allRecs : List Brec) (now : Date)
    (rep : AnalyticsReport)
    (hrep : getAnalyticsReport allRecs now = some rep) :
    ((allRecs.filter (fun b => !b.isDeleted)).length = 0 →
      rep.imageUsageRateTenths = 0 ∧ rep.notesUsageRateTenths = 0 ∧
        ∀ e ∈ rep.categoryDistribution, e.2.2 = 0) ∧
    rep.imageUsageRateTenths ≤ 1000 ∧
    rep.notesUsageRateTenths ≤ 1000 ∧
    rep.deletionRateTenths ≤ 1000 ∧
    (∀ e ∈ rep.categoryDistribution, e.2.2 ≤ 1000) ∧
    (rep.categoryDistribution.map (fun e => e.2.2)).sum ≤ 1003 := by
  unfold getAnalyticsReport at hrep
  by_cases h0 : allRecs.length = 0
  · rw [if_pos h0] at hrep
    cases hrep
  · rw [if_neg h0] at hrep
    simp only [Option.some.injEq] at hrep
    subst hrep
    dsimp only
    have hdel : allRecs.length -
        (allRecs.filter (fun b => !b.isDeleted)).length ≤ allRecs.length := by
      omega
    have himg : allRecs.countP (fun b => hasImage b && !b.isDeleted) ≤
        (allRecs.filter (fun b => !b.isDeleted)).length := by
      rw [← List.countP_eq_length_filter]
      exact List.countP_mono_left (fun x _ hx => by
        cases hd : x.isDeleted
        · rfl
        · rw [hd] at hx
          simp at hx)
    have hnot : allRecs.countP (fun b => hasNotes b && !b.isDeleted) ≤
        (allRecs.filter (fun b => !b.isDeleted)).length := by
      rw [← List.countP_eq_length_filter]
      exact List.countP_mono_left (fun x _ hx => by
        cases hd : x.isDeleted
        · rfl
        · rw [hd] at hx
          simp at hx)
    refine ⟨?_, ?_, ?_, ?_, ?_, ?_⟩
    · intro hA0
      refine ⟨by rw [if_neg (by omega)], by rw [if_neg (by omega)], ?_⟩
      intro e he
      obtain ⟨k, hk, hek⟩ := List.mem_map.mp he
      subst hek
      dsimp only
      rw [if_neg (by omega)]
    · by_cases hA : 0 < (allRecs.filter (fun b => !b.isDeleted)).length
      · rw [if_pos hA]
        exact pctTenths_le_1000 _ _ himg hA
      · rw [if_neg hA]
        omega
    · by_cases hA : 0 < (allRecs.filter (fun b => !b.isDeleted)).length
      · rw [if_pos hA]
        exact pctTenths_le_1000 _ _ hnot hA
      · rw [if_neg hA]
        omega
    · rw [if_pos (by omega)]
      exact pctTenths_le_1000 _ _ hdel (by omega)
    · intro e he
      obtain ⟨k, hk, hek⟩ := List.mem_map.mp he
      subst hek
      dsimp only
      by_cases hA : 0 < (allRecs.filter (fun b => !b.isDeleted)).length
      · rw [if_pos hA]
        exact pctTenths_le_1000 _ _ (List.countP_le_length _) hA
      · rw [if_neg hA]
        omega
    · simp only [categoryKeys, List.map_cons, List.map_nil, List.sum_cons,
        List.sum_nil]
      by_cases hA : 0 < (allRecs.filter (fun b => !b.isDeleted)).length
      case neg =>
        rw [if_neg hA, if_neg hA, if_neg hA, if_neg hA, if_neg hA, if_neg hA]
        omega
      case pos =>
        rw [if_pos hA, if_pos hA, if_pos hA, if_pos hA, if_pos hA, if_pos hA]
        have hsum := sum_cat_counts_le (allRecs.filter (fun b => !b.isDeleted))
        have hb1 := roundTenths_bound
          ((allRecs.filter (fun b => !b.isDeleted)).countP
            (fun b => b.category == "love") * 100)
          (allRecs.filter (fun b => !b.isDeleted)).length
        have hb2 := roundTenths_bound
          ((allRecs.filter (fun b => !b.isDeleted)).countP
            (fun b => b.category == "family") * 100)
          (allRecs.filter (fun b => !b.isDeleted)).length
        have hb3 := roundTenths_bound
          ((allRecs.filter (fun b => !b.isDeleted)).countP
            (fun b => b.category == "relative") * 100)
          (allRecs.filter (fun b => !b.isDeleted)).length
        have hb4 := roundTenths_bound
          ((allRecs.filter (fun b => !b.isDeleted)).countP
            (fun b => b.category == "work") * 100)
          (allRecs.filter (fun b => !b.isDeleted)).length
        have hb5 := roundTenths_bound
          ((allRecs.filter (fun b => !b.isDeleted)).countP
            (fun b => b.category == "friend") * 100)
          (allRecs.filter (fun b => !b.isDeleted)).length
        have hb6 := roundTenths_bound
          ((allRecs.filter (fun b => !b.isDeleted)).countP
            (fun b => b.category == "other") * 100)
          (allRecs.filter (fun b => !b.isDeleted)).length
        unfold pctTenths
        by_contra hS
        push_neg at hS
        nlinarith [hb1, hb2, hb3, hb4, hb5, hb6, hsum, hA, hS]

/-- Witness for C7 amended at a concrete input: the category
percentages of a one-record snapshot sum to at most 100.3%. -/
theorem analytics_rates_spec_witness :
    ((getAnalyticsReport [picRec] ⟨2024, 6, 1⟩).map
      (fun r => (r.categoryDistribution.map (fun e => e.2.2)).sum)).getD 0 ≤
      1003 := by
  have hsome : (getAnalyticsReport [picRec] ⟨2024, 6, 1⟩).isSome = true := by
    decide
  obtain ⟨rep, hrep⟩ := Option.isSome_iff_exists.mp hsome
  have h := analytics_rates_spec [picRec] ⟨2024, 6, 1⟩ rep hrep
  rw [hrep]
  simp only [Option.map_some', Option.getD_some]
  exact h.2.2.2.2.2

end BirthdayBot
